import Mathlib

/-!
Verification development for a double-pendulum MPC pipeline.

The program under study consists of:
* `plant_dynamics` — one explicit-Euler step of the continuous-time two-link
  pendulum equations of motion;
* `solve_ocp` — transcription of a finite-horizon optimal-control problem
  (N+1 state columns, N control columns, dynamics equality constraints,
  initial-state constraint, control box bounds, quadratic stage cost) handed
  to an external nonlinear solver, returning the objective value;
* `generate_ocp_samples` — a sampling loop collecting (initial state,
  optimal cost) pairs, skipping solver failures;
* `mpc_controller` — a receding-horizon loop that rebuilds and resolves the
  problem each iteration with a learned terminal-cost term.

The external solver (ipopt behind casadi's `Opti`) and the learned regression
model are abstracted as oracle parameters; everything else is translated
directly from the source.
-/

namespace DoublePendulum

noncomputable section

/-- A plant state: two angular positions followed by two angular velocities. -/
abbrev State := Fin 4 → ℝ

/-- A control: two joint torques. -/
abbrev Control := Fin 2 → ℝ

/-- Time step `dt = 0.01`, as hardcoded in `plant_dynamics`. -/
def dt : ℝ := 0.01

/-- Length of the first link (source literal `l1 = 1`). -/
def l1 : ℝ := 1

/-- Length of the second link (source literal `l2 = 1`). -/
def l2 : ℝ := 1

/-- Mass of the first link (source literal `m1 = 1`). -/
def m1 : ℝ := 1

/-- Mass of the second link (source literal `m2 = 1`). -/
def m2 : ℝ := 1

/-- Gravity (source literal `g = 9.81`). -/
def g : ℝ := 9.81

/-- The common denominator factor of both acceleration expressions in
`plant_dynamics`: `m2 * cos(-2*q2 + 2*q1) - 2*m1 - m2`, with `q1 = x 0`,
`q2 = x 1`. -/
def accelDenom (x : State) : ℝ :=
  m2 * Real.cos (-2 * x 1 + 2 * x 0) - 2 * m1 - m2

/-- The closed-form angular acceleration `ddq1` of `plant_dynamics`,
transcribed term by term from the source (with `q1 = x 0`, `q2 = x 1`,
`dq1 = x 2`, `dq2 = x 3`, `u1 = u 0`, `u2 = u 1`). -/
def ddq1Expr (x : State) (u : Control) : ℝ :=
  (l1 ^ 2 * l2 * m2 * (x 2) ^ 2 * Real.sin (-2 * x 1 + 2 * x 0)
      + 2 * u 1 * Real.cos (-(x 1) + x 0) * l1
      + 2 * (g * Real.sin (-2 * x 1 + x 0) * l1 * m2 / 2
              + Real.sin (-(x 1) + x 0) * (x 3) ^ 2 * l1 * l2 * m2
              + g * l1 * (m1 + m2 / 2) * Real.sin (x 0)
              - u 0) * l2)
    / l1 ^ 2 / l2 / accelDenom x

/-- The closed-form angular acceleration `ddq2` of `plant_dynamics`,
transcribed term by term from the source. -/
def ddq2Expr (x : State) (u : Control) : ℝ :=
  (-g * l1 * l2 * m2 * (m1 + m2) * Real.sin (-(x 1) + 2 * x 0)
      - l1 * l2 ^ 2 * m2 ^ 2 * (x 3) ^ 2 * Real.sin (-2 * x 1 + 2 * x 0)
      - 2 * (x 2) ^ 2 * l1 ^ 2 * l2 * m2 * (m1 + m2) * Real.sin (-(x 1) + x 0)
      + 2 * u 0 * Real.cos (-(x 1) + x 0) * l2 * m2
      + l1 * (m1 + m2) * (Real.sin (x 1) * g * l2 * m2 - 2 * u 1))
    / l2 ^ 2 / l1 / m2 / accelDenom x

/-- The source's `x_next = vertcat(dq1, dq2, ddq1, ddq2)`: the continuous-time
state derivative. -/
def plantDeriv (x : State) (u : Control) : State :=
  ![x 2, x 3, ddq1Expr x u, ddq2Expr x u]

/-- Source function `plant_dynamics(x, u)`: one explicit-Euler step, `x + dt * x_next`. -/
def plant_dynamics (x : State) (u : Control) : State :=
  x + dt • plantDeriv x u

/-- The source performs its divisions unguarded; a zero denominator would
propagate non-finite values. This wrapper makes that failure mode explicit:
it returns `none` exactly when the acceleration denominator vanishes and the
Euler step otherwise. -/
def plant_dynamics_checked (x : State) (u : Control) : Option State :=
  if accelDenom x = 0 then none else some (plant_dynamics x u)

/-- The acceleration denominator is trapped in `[-4, -2]`: with the source's
parameters it is `cos (2*(q1 - q2)) - 3`. -/
lemma accelDenom_mem_Icc (x : State) :
    accelDenom x ∈ Set.Icc (-4 : ℝ) (-2) := by
  unfold accelDenom m1 m2
  constructor
  · have h := Real.neg_one_le_cos (-2 * x 1 + 2 * x 0)
    linarith
  · have h := Real.cos_le_one (-2 * x 1 + 2 * x 0)
    linarith

lemma accelDenom_ne_zero (x : State) : accelDenom x ≠ 0 := by
  have h := accelDenom_mem_Icc x
  have h2 := h.2
  intro hc
  rw [hc] at h2
  norm_num at h2

/-- C2: the acceleration-model denominator is never near zero — for every
configuration it has absolute value at least 2 (it lies in `[-4, -2]`) — so
the set of inputs at which the claim demands a `DynamicsSingularity` error is
empty, and on every input the step returns a normal (finite) state, namely
the unguarded Euler step. The source contains no singularity check, and with
its parameter values none is ever exercised. -/
theorem dynamics_no_singularity_always_returns (x : State) (u : Control) :
    2 ≤ |accelDenom x| ∧
      plant_dynamics_checked x u = some (plant_dynamics x u) := by
  have h := accelDenom_mem_Icc x
  refine ⟨?_, ?_⟩
  · exact le_abs.mpr (Or.inr (by linarith [h.2]))
  · simp [plant_dynamics_checked, accelDenom_ne_zero x]

/-- C10: one step is `x + 0.01 * f(x, u)`, the position components update as
`q1 + dt*dq1` and `q2 + dt*dq2` from the current velocities alone, and they
are identical for any two controls `u`, `u'` — the control only enters the
acceleration (velocity-update) components. -/
theorem step_position_update_control_independent
    (x : State) (u u' : Control) :
    plant_dynamics x u = x + (0.01 : ℝ) • plantDeriv x u ∧
      plant_dynamics x u 0 = x 0 + 0.01 * x 2 ∧
      plant_dynamics x u 1 = x 1 + 0.01 * x 3 ∧
      plant_dynamics x u 0 = plant_dynamics x u' 0 ∧
      plant_dynamics x u 1 = plant_dynamics x u' 1 := by
  refine ⟨rfl, ?_, ?_, ?_, ?_⟩ <;>
    simp [plant_dynamics, plantDeriv, dt]

/-- Quadratic stage cost of one horizon step, the loop body
`x[:,k].T @ Q @ x[:,k] + u[:,k].T @ R @ u[:,k]` of `solve_ocp`. -/
def stageCost (Q : Matrix (Fin 4) (Fin 4) ℝ) (R : Matrix (Fin 2) (Fin 2) ℝ)
    (x : State) (u : Control) : ℝ :=
  Matrix.dotProduct x (Q.mulVec x) + Matrix.dotProduct u (R.mulVec u)

/-- The objective accumulated by `solve_ocp`'s loop: stage costs over columns
`0 .. N-1` of the state and control variables (no terminal term). -/
def ocpCost (Q : Matrix (Fin 4) (Fin 4) ℝ) (R : Matrix (Fin 2) (Fin 2) ℝ)
    {N : ℕ} (xs : Fin (N + 1) → State) (us : Fin N → Control) : ℝ :=
  ∑ k : Fin N, stageCost Q R (xs k.castSucc) (us k)

/-- The objective of one `mpc_controller` iteration: the same stage-cost sum
plus the scalar terminal cost added with `cost += terminal_cost`. -/
def ocpCostWithTerminal (Q : Matrix (Fin 4) (Fin 4) ℝ)
    (R : Matrix (Fin 2) (Fin 2) ℝ) {N : ℕ}
    (xs : Fin (N + 1) → State) (us : Fin N → Control) (tc : ℝ) : ℝ :=
  ocpCost Q R xs us + tc

/-- One constraint emitted by the transcription in `solve_ocp`: a dynamics
equality for column `k`, the initial-state equality, or the control box
bound. -/
inductive OCPConstraint (N : ℕ) where
  | dyn (k : Fin N)
  | init (x0 : State)
  | bound

/-- Satisfaction of one emitted constraint by candidate trajectories. -/
def constraintSat {N : ℕ} (xs : Fin (N + 1) → State) (us : Fin N → Control) :
    OCPConstraint N → Prop
  | .dyn k => xs k.succ = plant_dynamics (xs k.castSucc) (us k)
  | .init x0 => xs 0 = x0
  | .bound => ∀ (k : Fin N) (i : Fin 2), -1.99 ≤ us k i ∧ us k i ≤ 1.99

/-- The nonlinear program built by `solve_ocp` before the solver is invoked:
variable blocks `x = opti.variable(4, N+1)` and `u = opti.variable(2, N)`,
the constraints in emission order (dynamics equalities inside the loop, then
the initial-state equality, then the control bounds), and the objective. -/
structure OCPSpec (N : ℕ) where
  stateCols : ℕ
  controlCols : ℕ
  constraints : List (OCPConstraint N)
  objective : (Fin (N + 1) → State) → (Fin N → Control) → ℝ

/-- The transcription performed by `solve_ocp` (and repeated verbatim inside
`mpc_controller`'s loop, there with a terminal constant added to the
objective). -/
def buildOCP (x_init : State) (N : ℕ) (Q : Matrix (Fin 4) (Fin 4) ℝ)
    (R : Matrix (Fin 2) (Fin 2) ℝ) : OCPSpec N :=
  { stateCols := N + 1
    controlCols := N
    constraints := ((List.finRange N).map .dyn) ++ [.init x_init, .bound]
    objective := ocpCost Q R }

/-- A feasible point of an `OCPSpec`: all emitted constraints hold. -/
def OCPSpec.Feasible {N : ℕ} (p : OCPSpec N) (xs : Fin (N + 1) → State)
    (us : Fin N → Control) : Prop :=
  ∀ c ∈ p.constraints, constraintSat xs us c

lemma buildOCP_feasible_iff (x_init : State) (N : ℕ)
    (Q : Matrix (Fin 4) (Fin 4) ℝ) (R : Matrix (Fin 2) (Fin 2) ℝ)
    (xs : Fin (N + 1) → State) (us : Fin N → Control) :
    (buildOCP x_init N Q R).Feasible xs us ↔
      xs 0 = x_init ∧
        (∀ k : Fin N, xs k.succ = plant_dynamics (xs k.castSucc) (us k)) ∧
        (∀ (k : Fin N) (i : Fin 2), -1.99 ≤ us k i ∧ us k i ≤ 1.99) := by
  constructor
  · intro h
    refine ⟨h (.init x_init) ?_, fun k => h (.dyn k) ?_, h .bound ?_⟩ <;>
      simp [buildOCP]
  · rintro ⟨h0, hdyn, hbnd⟩ c hc
    simp only [buildOCP, List.mem_append, List.mem_map, List.mem_cons,
      List.mem_singleton, List.not_mem_nil, or_false] at hc
    rcases hc with ⟨k, _, rfl⟩ | rfl | rfl
    · exact hdyn k
    · exact h0
    · exact hbnd

/-- C4: the transcription creates `N+1` state columns and `N` control
columns, and its constraint set is satisfied exactly when the state at index
0 equals `x0`, every consecutive state pair is related by the hard dynamics
equality `state[k+1] = plant_dynamics(state[k], control[k])`, and every
control component lies in `[-1.99, 1.99]`. -/
theorem transcription_shape_and_constraints (x0 : State) (N : ℕ)
    (Q : Matrix (Fin 4) (Fin 4) ℝ) (R : Matrix (Fin 2) (Fin 2) ℝ)
    (xs : Fin (N + 1) → State) (us : Fin N → Control) :
    (buildOCP x0 N Q R).stateCols = N + 1 ∧
      (buildOCP x0 N Q R).controlCols = N ∧
      ((buildOCP x0 N Q R).Feasible xs us ↔
        xs 0 = x0 ∧
          (∀ k : Fin N, xs k.succ = plant_dynamics (xs k.castSucc) (us k)) ∧
          (∀ (k : Fin N) (i : Fin 2), -1.99 ≤ us k i ∧ us k i ≤ 1.99)) :=
  ⟨rfl, rfl, buildOCP_feasible_iff x0 N Q R xs us⟩

lemma stageCost_nonneg {Q : Matrix (Fin 4) (Fin 4) ℝ}
    {R : Matrix (Fin 2) (Fin 2) ℝ} (hQ : Q.PosSemidef) (hR : R.PosSemidef)
    (x : State) (u : Control) : 0 ≤ stageCost Q R x u := by
  have h1 := hQ.2 x
  have h2 := hR.2 u
  simp only [star_trivial] at h1 h2
  exact add_nonneg h1 h2

/-- C8: with positive semi-definite `Q` and `R`, every per-stage quadratic
term of the transcribed objective is nonnegative, the bare total cost (sum
of those terms) is nonnegative, and the cost with a terminal term is exactly
that sum plus the terminal term — hence at least the terminal term. -/
theorem cost_nonneg_of_posSemidef (Q : Matrix (Fin 4) (Fin 4) ℝ)
    (R : Matrix (Fin 2) (Fin 2) ℝ) (N : ℕ) (xs : Fin (N + 1) → State)
    (us : Fin N → Control) (tc : ℝ)
    (hQ : Q.PosSemidef) (hR : R.PosSemidef) :
    (∀ k : Fin N, 0 ≤ stageCost Q R (xs k.castSucc) (us k)) ∧
      0 ≤ ocpCost Q R xs us ∧
      ocpCostWithTerminal Q R xs us tc = ocpCost Q R xs us + tc ∧
      tc ≤ ocpCostWithTerminal Q R xs us tc := by
  have hstage : ∀ k : Fin N, 0 ≤ stageCost Q R (xs k.castSucc) (us k) :=
    fun k => stageCost_nonneg hQ hR _ _
  have hsum : 0 ≤ ocpCost Q R xs us :=
    Finset.sum_nonneg fun k _ => hstage k
  exact ⟨hstage, hsum, rfl, by simpa [ocpCostWithTerminal] using hsum⟩

/-- Witness for C8 at concrete inputs: the identity matrices are positive
semi-definite and at the zero trajectories with terminal term 5 the
conclusion holds. -/
theorem cost_nonneg_of_posSemidef_witness :
    (1 : Matrix (Fin 4) (Fin 4) ℝ).PosSemidef ∧
      (1 : Matrix (Fin 2) (Fin 2) ℝ).PosSemidef ∧
      ((∀ k : Fin 2, 0 ≤ stageCost 1 1
          ((fun _ _ => 0 : Fin 3 → State) k.castSucc)
          ((fun _ _ => 0 : Fin 2 → Control) k)) ∧
        0 ≤ ocpCost 1 1 (fun _ _ => 0 : Fin 3 → State)
          (fun _ _ => 0 : Fin 2 → Control) ∧
        ocpCostWithTerminal 1 1 (fun _ _ => 0 : Fin 3 → State)
            (fun _ _ => 0 : Fin 2 → Control) 5 =
          ocpCost 1 1 (fun _ _ => 0 : Fin 3 → State)
            (fun _ _ => 0 : Fin 2 → Control) + 5 ∧
        5 ≤ ocpCostWithTerminal 1 1 (fun _ _ => 0 : Fin 3 → State)
          (fun _ _ => 0 : Fin 2 → Control) 5) :=
  ⟨Matrix.PosSemidef.one, Matrix.PosSemidef.one,
    cost_nonneg_of_posSemidef 1 1 2 (fun _ _ => 0) (fun _ _ => 0) 5
      Matrix.PosSemidef.one Matrix.PosSemidef.one⟩

/-- The typed failures of the external nonlinear solver. In the source,
casadi's `opti.solve()` raises `RuntimeError` on any non-success status; the
callers only ever catch the whole class. -/
inductive SolverFailure where
  | infeasible
  | maxIterationsExceeded
  | numericalError

/-- What a successful `opti.solve()` carries: values for every state column,
every control column, and any expression — in particular the objective. The
source's `solve_ocp` queries only `sol.value(cost)`. -/
structure OCPSol (N : ℕ) where
  xs : Fin (N + 1) → State
  us : Fin N → Control
  cost : ℝ

/-- Source function `solve_ocp(x_init, N, Q, R)`: build the transcription and hand it to the
external solver, then return `sol.value(cost)` — the scalar objective value
alone. A solver exception propagates to the caller. -/
def solve_ocp (solver : ∀ {M : ℕ}, OCPSpec M → Except SolverFailure (OCPSol M))
    (x_init : State) (N : ℕ) (Q : Matrix (Fin 4) (Fin 4) ℝ)
    (R : Matrix (Fin 2) (Fin 2) ℝ) : Except SolverFailure ℝ :=
  (solver (buildOCP x_init N Q R)).map (fun sol => sol.cost)

/-- C3 counterexample: two solver runs whose solutions have different optimal
state trajectories (all-zero vs all-one columns) but the same objective value
produce identical `solve_ocp` results. The returned value therefore cannot
contain the optimal state trajectory or control sequence: it is the scalar
cost alone. -/
theorem solve_ocp_drops_trajectory :
    solve_ocp (fun {M} _ => Except.ok ⟨fun _ _ => 0, fun _ _ => 0, 5⟩)
        (fun _ => 0) 10 1 1 =
      solve_ocp (fun {M} _ => Except.ok ⟨fun _ _ => 1, fun _ _ => 0, 5⟩)
        (fun _ => 0) 10 1 1 ∧
      ((fun _ _ => 0 : Fin 11 → State) ≠ (fun _ _ => 1 : Fin 11 → State)) := by
  refine ⟨rfl, fun h => ?_⟩
  have h0 := congrFun (congrFun h 0) 0
  norm_num at h0

/-- C3 amended: on solver success `solve_ocp` returns exactly the scalar
objective value of the solution (trajectory and controls are discarded), and
on failure the typed failure propagates unchanged. -/
theorem solve_ocp_returns_scalar_cost
    (solver : ∀ {M : ℕ}, OCPSpec M → Except SolverFailure (OCPSol M))
    (x_init : State) (N : ℕ) (Q : Matrix (Fin 4) (Fin 4) ℝ)
    (R : Matrix (Fin 2) (Fin 2) ℝ) :
    (∀ sol, solver (buildOCP x_init N Q R) = Except.ok sol →
        solve_ocp solver x_init N Q R = Except.ok sol.cost) ∧
      (∀ e, solver (buildOCP x_init N Q R) = Except.error e →
        solve_ocp solver x_init N Q R = Except.error e) := by
  constructor
  · intro sol h
    simp [solve_ocp, h, Except.map]
  · intro e h
    simp [solve_ocp, h, Except.map]

/-- Witness for C3's amended theorem at concrete oracles: a solver that
returns cost 7 yields `ok 7`, and a solver that reports infeasibility yields
that failure. -/
theorem solve_ocp_returns_scalar_cost_witness :
    ((fun {M : ℕ} (_ : OCPSpec M) =>
        (Except.ok (⟨fun _ _ => 0, fun _ _ => 0, 7⟩ : OCPSol M) :
          Except SolverFailure (OCPSol M)))
        (buildOCP (fun _ => 0) 3 1 1) =
      Except.ok (⟨fun _ _ => 0, fun _ _ => 0, 7⟩ : OCPSol 3)) ∧
    solve_ocp (fun {M} _ => Except.ok ⟨fun _ _ => 0, fun _ _ => 0, 7⟩)
        (fun _ => 0) 3 1 1 = Except.ok (7 : ℝ) ∧
    ((fun {M : ℕ} (_ : OCPSpec M) =>
        (Except.error SolverFailure.infeasible : Except SolverFailure (OCPSol M)))
        (buildOCP (fun _ => 0) 3 1 1) =
      Except.error SolverFailure.infeasible) ∧
    solve_ocp (fun {M} _ => Except.error SolverFailure.infeasible)
        (fun _ => 0) 3 1 1 = Except.error SolverFailure.infeasible :=
  ⟨rfl,
    (solve_ocp_returns_scalar_cost (fun {M} _ =>
        Except.ok ⟨fun _ _ => 0, fun _ _ => 0, 7⟩)
      (fun _ => 0) 3 1 1).1 _ rfl,
    rfl,
    (solve_ocp_returns_scalar_cost (fun {M} _ =>
        Except.error SolverFailure.infeasible)
      (fun _ => 0) 3 1 1).2 _ rfl⟩

/-- The accumulation loop of `generate_ocp_samples`: one draw per iteration;
on success the pair is appended to the parallel lists `X` and `Y`, on a
caught `RuntimeError` the iteration just continues. -/
def genLoop (solver : ∀ {M : ℕ}, OCPSpec M → Except SolverFailure (OCPSol M))
    (N : ℕ) (Q : Matrix (Fin 4) (Fin 4) ℝ) (R : Matrix (Fin 2) (Fin 2) ℝ) :
    List State → List State → List ℝ → List State × List ℝ
  | [], X, Y => (X, Y)
  | x0 :: rest, X, Y =>
    match solve_ocp solver x0 N Q R with
    | .ok J => genLoop solver N Q R rest (X ++ [x0]) (Y ++ [J])
    | .error _ => genLoop solver N Q R rest X Y

/-- Source function `generate_ocp_samples(num_samples, N, Q, R)`: the random initial states
are supplied as the list `draws` (one uniform draw per loop iteration, so
`num_samples = draws.length`); each is solved with `solve_ocp` and collected
into the parallel arrays `X`, `Y`, skipping failures. -/
def generate_ocp_samples
    (solver : ∀ {M : ℕ}, OCPSpec M → Except SolverFailure (OCPSol M))
    (draws : List State) (N : ℕ) (Q : Matrix (Fin 4) (Fin 4) ℝ)
    (R : Matrix (Fin 2) (Fin 2) ℝ) : List State × List ℝ :=
  genLoop solver N Q R draws [] []

/-- The successful (initial state, optimal cost) pairs among the draws, in
draw order. -/
def successfulSamples
    (solver : ∀ {M : ℕ}, OCPSpec M → Except SolverFailure (OCPSol M))
    (draws : List State) (N : ℕ) (Q : Matrix (Fin 4) (Fin 4) ℝ)
    (R : Matrix (Fin 2) (Fin 2) ℝ) : List (State × ℝ) :=
  draws.filterMap fun x0 =>
    match solve_ocp solver x0 N Q R with
    | .ok J => some (x0, J)
    | .error _ => none

lemma genLoop_append
    (solver : ∀ {M : ℕ}, OCPSpec M → Except SolverFailure (OCPSol M))
    (N : ℕ) (Q : Matrix (Fin 4) (Fin 4) ℝ) (R : Matrix (Fin 2) (Fin 2) ℝ)
    (draws : List State) :
    ∀ X Y, genLoop solver N Q R draws X Y =
      (X ++ (successfulSamples solver draws N Q R).map Prod.fst,
        Y ++ (successfulSamples solver draws N Q R).map Prod.snd) := by
  induction draws with
  | nil => intro X Y; simp [genLoop, successfulSamples]
  | cons x0 rest ih =>
    intro X Y
    cases h : solve_ocp solver x0 N Q R with
    | ok J =>
      simp [genLoop, h, ih, successfulSamples, List.filterMap_cons]
    | error e =>
      simp [genLoop, h, ih, successfulSamples, List.filterMap_cons]

/-- C7: sample generation returns exactly the successful (x0, optimal cost)
pairs, in draw order, in its two parallel arrays; every failed draw is
skipped silently (it leaves no trace and generation continues), and no draw
is retried: at most one entry per draw, so at most `num_samples` entries. -/
theorem samples_are_exactly_successes
    (solver : ∀ {M : ℕ}, OCPSpec M → Except SolverFailure (OCPSol M))
    (draws : List State) (N : ℕ) (Q : Matrix (Fin 4) (Fin 4) ℝ)
    (R : Matrix (Fin 2) (Fin 2) ℝ) :
    (generate_ocp_samples solver draws N Q R).1 =
        (successfulSamples solver draws N Q R).map Prod.fst ∧
      (generate_ocp_samples solver draws N Q R).2 =
        (successfulSamples solver draws N Q R).map Prod.snd ∧
      (generate_ocp_samples solver draws N Q R).1.length ≤ draws.length := by
  have h := genLoop_append solver N Q R draws [] []
  refine ⟨?_, ?_, ?_⟩
  · simp [generate_ocp_samples, h]
  · simp [generate_ocp_samples, h]
  · simp only [generate_ocp_samples, h, List.nil_append, List.length_map]
    exact List.length_filterMap_le _ _

/-- What `mpc_controller`'s per-iteration `opti.solve()` would carry: values
of the state columns (`xs 0 .. xs N`), control columns (`us 0 .. us (N-1)`),
and of the objective including the terminal constant (`sol.value(cost)`).
Columns are indexed by `ℕ`; indices beyond the horizon are unused. -/
structure MPCSol where
  xs : ℕ → State
  us : ℕ → Control
  cost : ℝ

/-- The runtime errors of `mpc_controller`'s loop body. -/
inductive RunError where
  /-- Python `NameError`: the local `sol` is read before any assignment. -/
  | nameError
  /-- The previous iteration's `OptiSol` is asked for the value of a decision
  variable belonging to the freshly constructed `Opti`; casadi rejects a
  variable that is not part of the solved problem. -/
  | foreignVariable
  /-- `opti.solve()` raised (solver non-success). -/
  | solverFailure (e : SolverFailure)

/-- The terminal-state read of `mpc_controller`'s loop:
`sol.value(x[:, -1])`. On the first iteration `sol` is unbound (the
assignment `sol = opti.solve()` only happens later in the body), a
`NameError`; on later iterations `sol` is the previous iteration's solution
while `x` is the new problem's variable block, also an error. No explicit
seed terminal state exists anywhere in the source. -/
def staleTerminalRef (prev : Option MPCSol) : Except RunError State :=
  match prev with
  | none => .error .nameError
  | some _ => .error .foreignVariable

/-- The mutable state of `mpc_controller`'s loop: `x_current`, `total_cost`,
and the growing trajectories `x_traj`, `u_traj`. -/
structure MPCRunState where
  x_current : State
  total_cost : ℝ
  x_traj : List State
  u_traj : List Control

/-- The post-solve tail of the loop body: extract the first control
`u_opt = sol.value(u[:, 0])` and the second state `x_opt = sol.value(x[:, 1])`,
set `x_current = x_opt`, accumulate `total_cost += sol.value(cost)`, and
append the new state and the applied control. The plant dynamics are not
re-simulated anywhere here: the solver's own one-step prediction is adopted
as the next state. -/
def applyStep (sol : MPCSol) (st : MPCRunState) : MPCRunState :=
  { x_current := sol.xs 1
    total_cost := st.total_cost + sol.cost
    x_traj := st.x_traj ++ [sol.xs 1]
    u_traj := st.u_traj ++ [sol.us 0] }

/-- The `for _ in range(horizon_length)` loop of `mpc_controller`. Each
iteration evaluates the terminal-cost term (which reads `sol`, see
`staleTerminalRef`), then would solve the rebuilt problem for the current
state with the predicted terminal constant in the objective, and apply the
result. The per-iteration transcription and solve are abstracted into
`solver`, consulted with the current state and the terminal constant. -/
def mpcLoop (solver : State → ℝ → Except SolverFailure MPCSol)
    (predict : State → ℝ) :
    ℕ → Option MPCSol → MPCRunState → Except RunError MPCRunState
  | 0, _, st => .ok st
  | h + 1, prev, st =>
    match staleTerminalRef prev with
    | .error e => .error e
    | .ok xN =>
      match solver st.x_current (predict xN) with
      | .error e => .error (.solverFailure e)
      | .ok sol => mpcLoop solver predict h (some sol) (applyStep sol st)

/-- Source function `mpc_controller(x_init, dt, N, Q, R, horizon_length, terminal_cost_model)`:
initialize `x_current = x_init`, `total_cost = 0`, `x_traj = [x_init]`,
`u_traj = []`, run the loop, and return the arrays and the total cost.
`predict` is `terminal_cost_model.predict`; `dt`, `N`, `Q`, `R` only shape
the per-iteration problem handed to the abstract solver. -/
def mpc_controller (solver : State → ℝ → Except SolverFailure MPCSol)
    (predict : State → ℝ) (x_init : State) (dt : ℝ) (N : ℕ)
    (Q : Matrix (Fin 4) (Fin 4) ℝ) (R : Matrix (Fin 2) (Fin 2) ℝ)
    (horizon_length : ℕ) :
    Except RunError (List State × List Control × ℝ) :=
  (mpcLoop solver predict horizon_length none
      ⟨x_init, 0, [x_init], []⟩).map
    fun st => (st.x_traj, st.u_traj, st.total_cost)

/-- C1: no iteration's terminal-cost term is `predict` of a fixed prior
terminal state. The first iteration reads the unbound local `sol`
(`NameError`, not an explicit seed); every later iteration would ask the
stale previous solution for the fresh problem's variable (also an error);
consequently any loop of at least one iteration aborts with the `NameError`
before a single problem is solved. -/
theorem terminal_cost_reads_undefined_prior_solution :
    staleTerminalRef none = Except.error RunError.nameError ∧
      (∀ s, staleTerminalRef (some s) = Except.error RunError.foreignVariable) ∧
      (∀ (solver : State → ℝ → Except SolverFailure MPCSol)
          (predict : State → ℝ) (H : ℕ) (st : MPCRunState),
        mpcLoop solver predict (H + 1) none st = Except.error RunError.nameError) :=
  ⟨rfl, fun _ => rfl, fun _ _ _ _ => rfl⟩

/-- C5: the only runs of `mpc_controller` that complete are the trivial ones
with `horizon_length = 0`, which do return a state trajectory of length
`0 + 1`, a control sequence of length `0`, and total cost `0` (the empty
sum); every run with `horizon_length ≥ 1` raises the `NameError` in its
first iteration instead of executing its iterations. -/
theorem mpc_run_completes_only_for_zero_horizon
    (solver : State → ℝ → Except SolverFailure MPCSol)
    (predict : State → ℝ) (x_init : State) (dt : ℝ) (N : ℕ)
    (Q : Matrix (Fin 4) (Fin 4) ℝ) (R : Matrix (Fin 2) (Fin 2) ℝ) :
    mpc_controller solver predict x_init dt N Q R 0 =
        Except.ok ([x_init], ([] : List Control), (0 : ℝ)) ∧
      (∀ H : ℕ, mpc_controller solver predict x_init dt N Q R (H + 1) =
        Except.error RunError.nameError) :=
  ⟨rfl, fun _ => rfl⟩

/-- C6: the loop body's post-solve update appends exactly the first control
of the solved trajectory, appends and adopts as current state exactly the
second state of the solved trajectory, and performs no independent plant
re-simulation: the adopted state agrees with a `plant_dynamics` step only in
the accidental case where the solver's prediction already equals it. -/
theorem apply_first_control_adopt_predicted_state
    (sol : MPCSol) (st : MPCRunState) :
    (applyStep sol st).u_traj = st.u_traj ++ [sol.us 0] ∧
      (applyStep sol st).x_traj = st.x_traj ++ [sol.xs 1] ∧
      (applyStep sol st).x_current = sol.xs 1 ∧
      (applyStep sol st).total_cost = st.total_cost + sol.cost ∧
      ((applyStep sol st).x_current =
          plant_dynamics st.x_current (sol.us 0) ↔
        sol.xs 1 = plant_dynamics st.x_current (sol.us 0)) :=
  ⟨rfl, rfl, rfl, rfl, Iff.rfl⟩

/-- The objective values attained by feasible points of the transcribed
program — the search space `solve_ocp` hands to the external solver. -/
def feasCostSet (x0 : State) (N : ℕ) (Q : Matrix (Fin 4) (Fin 4) ℝ)
    (R : Matrix (Fin 2) (Fin 2) ℝ) : Set ℝ :=
  {c | ∃ (xs : Fin (N + 1) → State) (us : Fin N → Control),
    (buildOCP x0 N Q R).Feasible xs us ∧
      c = (buildOCP x0 N Q R).objective xs us}

/-- The exact optimal value of the transcribed program. The nonlinear solver
is an external black box consumed through an abstract interface; here it is
idealized as returning the true optimum of the problem `solve_ocp` builds. -/
def ocpValue (x0 : State) (N : ℕ) (Q : Matrix (Fin 4) (Fin 4) ℝ)
    (R : Matrix (Fin 2) (Fin 2) ℝ) : ℝ :=
  sInf (feasCostSet x0 N Q R)

/-- Zero-torque rollout of the plant: a feasible trajectory exists from any
initial state because the dynamics step is total (`accelDenom` never
vanishes). -/
def rollout (x0 : State) : ℕ → State
  | 0 => x0
  | n + 1 => plant_dynamics (rollout x0 n) (fun _ => 0)

lemma feasCostSet_nonempty (x0 : State) (N : ℕ)
    (Q : Matrix (Fin 4) (Fin 4) ℝ) (R : Matrix (Fin 2) (Fin 2) ℝ) :
    (feasCostSet x0 N Q R).Nonempty := by
  refine ⟨ocpCost Q R (fun k => rollout x0 k.val) (fun _ _ => 0),
    fun k => rollout x0 k.val, fun _ _ => 0, ?_, rfl⟩
  rw [buildOCP_feasible_iff]
  refine ⟨by simp [rollout], fun k => ?_, fun k i => by norm_num⟩
  simp [Fin.val_succ, Fin.coe_castSucc, rollout]

lemma feasCostSet_bddBelow (x0 : State) (N : ℕ)
    {Q : Matrix (Fin 4) (Fin 4) ℝ} {R : Matrix (Fin 2) (Fin 2) ℝ}
    (hQ : Q.PosSemidef) (hR : R.PosSemidef) :
    BddBelow (feasCostSet x0 N Q R) := by
  refine ⟨0, fun c hc => ?_⟩
  obtain ⟨xs, us, _, rfl⟩ := hc
  show (0 : ℝ) ≤ ocpCost Q R xs us
  exact Finset.sum_nonneg fun k _ => stageCost_nonneg hQ hR _ _

lemma dotProduct_stdBasisMatrix_mulVec {n : Type*} [Fintype n] [DecidableEq n]
    (i : n) (c : ℝ) (v : n → ℝ) :
    Matrix.dotProduct v ((Matrix.stdBasisMatrix i i c).mulVec v) =
      c * (v i * v i) := by
  rw [Matrix.mulVec_stdBasisMatrix]
  simp [Matrix.dotProduct, Function.update, Finset.sum_ite_eq]
  ring

lemma stageCost_le_add_stdBasis_left {Q : Matrix (Fin 4) (Fin 4) ℝ}
    {R : Matrix (Fin 2) (Fin 2) ℝ} (i : Fin 4) {δ : ℝ} (hδ : 0 ≤ δ)
    (x : State) (u : Control) :
    stageCost Q R x u ≤ stageCost (Q + Matrix.stdBasisMatrix i i δ) R x u := by
  unfold stageCost
  rw [Matrix.add_mulVec, Matrix.dotProduct_add,
    dotProduct_stdBasisMatrix_mulVec]
  nlinarith [mul_self_nonneg (x i)]

lemma stageCost_le_add_stdBasis_right {Q : Matrix (Fin 4) (Fin 4) ℝ}
    {R : Matrix (Fin 2) (Fin 2) ℝ} (j : Fin 2) {δ : ℝ} (hδ : 0 ≤ δ)
    (x : State) (u : Control) :
    stageCost Q R x u ≤ stageCost Q (R + Matrix.stdBasisMatrix j j δ) x u := by
  unfold stageCost
  rw [Matrix.add_mulVec, Matrix.dotProduct_add,
    dotProduct_stdBasisMatrix_mulVec]
  nlinarith [mul_self_nonneg (u j)]

lemma ocpValue_le_of_pointwise (x0 : State) (N : ℕ)
    {Q Q' : Matrix (Fin 4) (Fin 4) ℝ} {R R' : Matrix (Fin 2) (Fin 2) ℝ}
    (hQ : Q.PosSemidef) (hR : R.PosSemidef)
    (hle : ∀ (xs : Fin (N + 1) → State) (us : Fin N → Control),
      ocpCost Q R xs us ≤ ocpCost Q' R' xs us) :
    ocpValue x0 N Q R ≤ ocpValue x0 N Q' R' := by
  have hfeas : ∀ (xs : Fin (N + 1) → State) (us : Fin N → Control),
      (buildOCP x0 N Q' R').Feasible xs us ↔
        (buildOCP x0 N Q R).Feasible xs us := by
    intro xs us
    rw [buildOCP_feasible_iff, buildOCP_feasible_iff]
  refine le_csInf ?_ ?_
  · obtain ⟨c, hc⟩ := feasCostSet_nonempty x0 N Q' R'
    exact ⟨c, hc⟩
  · rintro c ⟨xs, us, hf, rfl⟩
    have hmem : ocpCost Q R xs us ∈ feasCostSet x0 N Q R :=
      ⟨xs, us, (hfeas xs us).mp hf, rfl⟩
    exact le_trans (csInf_le (feasCostSet_bddBelow x0 N hQ hR) hmem)
      (hle xs us)

/-- C9: increasing a single diagonal entry of `Q` (adding `δ ≥ 0` at entry
`(i, i)`, all other entries unchanged) or of `R` (at `(j, j)`) never
decreases the optimal value of the transcribed problem for the same `x0` and
`N`. The feasible set is unchanged, and each feasible point's cost gains the
nonnegative amount `δ * Σ_k state[k][i]²` (resp. `δ * Σ_k control[k][j]²`). -/
theorem optimal_cost_monotone_in_diagonal_weights
    (x0 : State) (N : ℕ) (Q : Matrix (Fin 4) (Fin 4) ℝ)
    (R : Matrix (Fin 2) (Fin 2) ℝ) (i : Fin 4) (j : Fin 2) (δ : ℝ)
    (hQ : Q.PosSemidef) (hR : R.PosSemidef) (hδ : 0 ≤ δ) :
    ocpValue x0 N Q R ≤
        ocpValue x0 N (Q + Matrix.stdBasisMatrix i i δ) R ∧
      ocpValue x0 N Q R ≤
        ocpValue x0 N Q (R + Matrix.stdBasisMatrix j j δ) := by
  constructor
  · refine ocpValue_le_of_pointwise x0 N hQ hR fun xs us => ?_
    exact Finset.sum_le_sum fun k _ =>
      stageCost_le_add_stdBasis_left i hδ _ _
  · refine ocpValue_le_of_pointwise x0 N hQ hR fun xs us => ?_
    exact Finset.sum_le_sum fun k _ =>
      stageCost_le_add_stdBasis_right j hδ _ _

/-- Witness for C9 at concrete inputs: the identity weights are positive
semi-definite, `δ = 1` is nonnegative, and the monotonicity conclusion holds
at `x0 = 0`, `N = 0`. -/
theorem optimal_cost_monotone_witness :
    (1 : Matrix (Fin 4) (Fin 4) ℝ).PosSemidef ∧
      (1 : Matrix (Fin 2) (Fin 2) ℝ).PosSemidef ∧ (0 : ℝ) ≤ 1 ∧
      (ocpValue (fun _ => 0) 0 1 1 ≤
          ocpValue (fun _ => 0) 0 (1 + Matrix.stdBasisMatrix 0 0 1) 1 ∧
        ocpValue (fun _ => 0) 0 1 1 ≤
          ocpValue (fun _ => 0) 0 1 (1 + Matrix.stdBasisMatrix 0 0 1)) :=
  ⟨Matrix.PosSemidef.one, Matrix.PosSemidef.one, zero_le_one,
    optimal_cost_monotone_in_diagonal_weights (fun _ => 0) 0 1 1 0 0 1
      Matrix.PosSemidef.one Matrix.PosSemidef.one zero_le_one⟩

end

end DoublePendulum
